import Mathlib

/-!
Verification of the Chroma vector-store adapter
(`api/core/rag/datasource/vdb/chroma/chroma_vector.py`) against its
natural-language specification.

The Python code is shallowly embedded: Python floats are modelled as
rationals (`ℚ`), Python dicts as association lists, the Redis cache and
the Chroma backend as an explicit `Store` state threaded through the
operations, and observable side effects (lock, cache and backend calls)
as an explicit `Event` trace.  Python exceptions (`KeyError`,
`IndexError`) are modelled with `Except`.
-/

namespace Chroma

/-- A Python dict value appearing in Document metadata
(string values such as document ids, or numeric values such as scores). -/
inductive Val where
  | str (s : String)
  | num (q : ℚ)
deriving DecidableEq, Repr

/-- A Python dict with string keys, modelled as an association list in
insertion order (first binding of a key is the live one). -/
abbrev Metadata := List (String × Val)

/-- Python dict assignment `m[k] = v`: replaces the value of an existing
key in place, otherwise appends the new binding at the end. -/
def dictInsert : Metadata → String → Val → Metadata
  | [], k, v => [(k, v)]
  | (k', v') :: rest, k, v =>
      if k' = k then (k, v) :: rest else (k', v') :: dictInsert rest k v

/-- Python dict lookup `m.get(k)`: the binding of `k`, if any. -/
def dictGet : Metadata → String → Option Val
  | [], _ => none
  | (k', v') :: rest, k => if k' = k then some v' else dictGet rest k

/-- `core.rag.models.document.Document`: page content plus an optional
open metadata mapping (the `metadata` attribute defaults to `None`). -/
structure Document where
  page_content : String
  metadata : Option Metadata
deriving DecidableEq, Repr

/-- Generic association-list lookup for string-keyed state maps. -/
def alistGet {α : Type} : List (String × α) → String → Option α
  | [], _ => none
  | (k', v') :: rest, k => if k' = k then some v' else alistGet rest k

/-- Generic association-list update: replace the first binding of the
key, or append a new binding. -/
def alistInsert {α : Type} : List (String × α) → String → α → List (String × α)
  | [], k, v => [(k, v)]
  | (k', v') :: rest, k, v =>
      if k' = k then (k, v) :: rest else (k', v') :: alistInsert rest k v

/-!
### The backend query result

`chromadb`'s `QueryResult` is a Python dict whose fields `ids`,
`documents`, `metadatas` and `distances` are parallel outer lists (one
row per query embedding), each row a list of per-candidate values.  A
field is modelled as `Option (Option ...)`: the outer `Option` is
whether the key is present in the dict at all (subscripting an absent
key raises `KeyError`), the inner `Option` is whether its value is
`None` (the `documents`, `metadatas` and `distances` values are
declared `Optional` in chromadb).
-/

/-- The backend response consumed by `search_by_vector` (chromadb
`QueryResult`). -/
structure QueryResultRaw where
  ids : Option (Option (List (List String)))
  documents : Option (Option (List (List String)))
  metadatas : Option (Option (List (List Metadata)))
  distances : Option (Option (List (List ℚ)))
deriving DecidableEq, Repr

/-- Python dict subscript `results[name]`: raises `KeyError` when the
key is absent. -/
def getKey {α : Type} (field : Option α) (name : String) : Except String α :=
  match field with
  | some v => .ok v
  | none => .error ("KeyError: " ++ name)

/-- Combines the truthiness test `not results[name]` with the
subscript `results[name][0]`: `none` when the value is `None` or the
empty list (falsy, so the code returns `[]`), otherwise the first row.
In the source the falsy test and the `[0]` subscript are separate
statements; merging them is sound because the subscript cannot fail
once the value is truthy. -/
def firstRow {α : Type} : Option (List (List α)) → Option (List α)
  | some (row :: _) => some row
  | _ => none

/-- Python list subscript `xs[i]`: raises `IndexError` out of range. -/
def listIndex {α : Type} (xs : List α) (i : Nat) : Except String α :=
  match xs[i]? with
  | some v => .ok v
  | none => .error "IndexError: list index out of range"

/-- The accumulation loop of `search_by_vector`
(`for index in range(len(ids)): ...`): for each index, read the
distance and metadata, convert `score = 1 - distance`, and keep the
candidate (with the score injected into a copy of its metadata) only
when `score > score_threshold`.  `documents[index]` is read only inside
the threshold branch, exactly as in the source. -/
def collectDocs (documents : List String) (metadatas : List Metadata)
    (distances : List ℚ) (score_threshold : ℚ) :
    List Nat → Except String (List Document)
  | [] => .ok []
  | index :: rest => do
      let distance ← listIndex distances index
      let metadata ← listIndex metadatas index
      let score := 1 - distance
      if score > score_threshold then
        let pc ← listIndex documents index
        let tail ← collectDocs documents metadatas distances score_threshold rest
        .ok (⟨pc, some (dictInsert metadata "score" (.num score))⟩ :: tail)
      else
        collectDocs documents metadatas distances score_threshold rest

/-- The candidate list the loop of `search_by_vector` produces, phrased
directly over the zipped per-candidate triples
`(page content, metadata, distance)` in backend order: keep a candidate
exactly when `1 - distance > threshold`, injecting the score into its
metadata.  `collectDocs` over in-range indices computes exactly this
(proved below); claims are stated against this form. -/
def zipCollect (t : ℚ) : List (String × Metadata × ℚ) → List Document
  | [] => []
  | (pc, m, dist) :: rest =>
      if 1 - dist > t then
        ⟨pc, some (dictInsert m "score" (.num (1 - dist)))⟩ :: zipCollect t rest
      else zipCollect t rest

/-- The sort key of the final `sorted(docs, key=..., reverse=True)`
call: `x.metadata["score"] if x.metadata is not None else 0`.  Every
document built by the collection loop carries a numeric `"score"`
entry, so the non-numeric fallbacks are never exercised there. -/
def scoreKey (d : Document) : ℚ :=
  match d.metadata with
  | none => 0
  | some m =>
      match dictGet m "score" with
      | some (Val.num q) => q
      | _ => 0

/-- Ordering used to model Python's stable `sorted(..., reverse=True)`:
`a` may precede `b` when `a`'s score is at least `b`'s. -/
def docGE (a b : Document) : Prop := scoreKey b ≤ scoreKey a

instance : DecidableRel docGE :=
  fun a b => inferInstanceAs (Decidable (scoreKey b ≤ scoreKey a))

instance : IsTotal Document docGE :=
  ⟨fun a b => le_total (scoreKey b) (scoreKey a)⟩

instance : IsTrans Document docGE :=
  ⟨fun _ _ _ hab hbc => le_trans hbc hab⟩

/-- `ChromaVector.search_by_vector`, from the backend response onward
(lines 107-132).  The backend call itself (lines 97-106,
`collection.query(...)` with `n_results = top_k` and the optional
`document_ids_filter` where-clause) is the external chromadb client; it
is modelled by taking its `QueryResult` as the `results` input.
`score_threshold_arg` models `kwargs.get("score_threshold")`, defaulted
through `float(... or 0.0)`.  Python's `sorted` with `reverse=True` is
a stable descending sort, modelled by `List.insertionSort docGE`
(extensionally equal to any stable sort for this total preorder). -/
def search_by_vector (results : QueryResultRaw)
    (score_threshold_arg : Option ℚ) : Except String (List Document) := do
  let score_threshold := score_threshold_arg.getD 0
  let idsField ← getKey results.ids "ids"
  match firstRow idsField with
  | none => .ok []
  | some ids0 => do
    let documentsField ← getKey results.documents "documents"
    match firstRow documentsField with
    | none => .ok []
    | some documents0 => do
      let metadatasField ← getKey results.metadatas "metadatas"
      match firstRow metadatasField with
      | none => .ok []
      | some metadatas0 => do
        let distancesField ← getKey results.distances "distances"
        match firstRow distancesField with
        | none => .ok []
        | some distances0 => do
          let docs ← collectDocs documents0 metadatas0 distances0
            score_threshold (List.range ids0.length)
          .ok (List.insertionSort docGE docs)

/-- `ChromaVector.search_by_full_text` (lines 134-136): chroma has no
BM25 full-text search, so the adapter returns the empty list for any
query and keyword arguments. -/
def search_by_full_text (query : String) : List Document := []

/-!
### The stateful operations

The Redis cache and the Chroma backend are modelled as one explicit
`Store`; each operation also produces a trace of the observable lock,
cache and backend calls it makes, in order.
-/

/-- One entry of a backend collection: the tuple upserted by
`collection.upsert(ids=..., documents=..., embeddings=..., metadatas=...)`. -/
structure Entry where
  id : String
  text : String
  embedding : List ℚ
  metadata : Option Metadata
deriving DecidableEq, Repr

/-- The external state visible to the adapter: the Redis cache (key to
stored value and expiry seconds) and the backend collections (name to
entries). -/
structure Store where
  cache : List (String × Nat × Nat)
  collections : List (String × List Entry)
deriving DecidableEq, Repr

/-- Observable side effects of an adapter operation, in program order. -/
inductive Event where
  | lockAcquire (name : String) (timeoutSecs : Nat)
  | lockRelease (name : String)
  | cacheGet (key : String)
  | cacheSet (key : String) (value : Nat) (exSecs : Nat)
  | getOrCreateCollection (name : String)
  | collUpsert (name : String) (ids : List String)
  | collGet (name : String) (ids : List String)
  | collDelete (name : String) (ids : List String)
deriving DecidableEq, Repr

/-- `redis_client.get(key)`: the cached value, if present.  (The code
only ever tests the result for truthiness; Redis returns non-empty
bytes for any stored sentinel, so presence is truthiness.) -/
def redisGet (key : String) (st : Store) :
    Option (Nat × Nat) × Store × List Event :=
  (alistGet st.cache key, st, [.cacheGet key])

/-- `redis_client.set(key, value, ex=exSecs)`. -/
def redisSet (key : String) (value exSecs : Nat) (st : Store) :
    Store × List Event :=
  ({ st with cache := alistInsert st.cache key (value, exSecs) },
   [.cacheSet key value exSecs])

/-- `self._client.get_or_create_collection(name)` of the external
chromadb client: returns the collection's entries, creating an empty
collection when the name is new (idempotent at the backend). -/
def get_or_create_collection (name : String) (st : Store) :
    List Entry × Store × List Event :=
  match alistGet st.collections name with
  | some es => (es, st, [.getOrCreateCollection name])
  | none =>
      ([], { st with collections := alistInsert st.collections name [] },
       [.getOrCreateCollection name])

/-- `ChromaVector.create_collection` (lines 59-66).  The
`with redis_client.lock(lock_name, timeout=20)` block is modelled as
acquire/release events bracketing the body (the single-caller
semantics; acquisition always succeeds here).  Note the source builds
the lock name from the `collection_name` argument but the cache key
from `self._collection_name`; both parameters are kept. -/
def create_collection (collection_name self_collection_name : String)
    (st : Store) : Store × List Event :=
  let lock_name := "vector_indexing_lock_" ++ collection_name
  let collection_exist_cache_key := "vector_indexing_" ++ self_collection_name
  let (cached, st1, ev1) := redisGet collection_exist_cache_key st
  if cached.isSome then
    (st1, [.lockAcquire lock_name 20] ++ ev1 ++ [.lockRelease lock_name])
  else
    let (_, st2, ev2) := get_or_create_collection collection_name st1
    let (st3, ev3) := redisSet collection_exist_cache_key 1 3600 st2
    (st3, [.lockAcquire lock_name 20] ++ ev1 ++ ev2 ++ ev3 ++
      [.lockRelease lock_name])

/-- Modelled from the spec: `BaseVector._get_uuids`
(`core/rag/datasource/vdb/vector_base.py`) is not among the provided
sources.  Per the spec, `add_texts` "assigns a unique id to each
Document (reusing a caller-supplied id if present in metadata, else
generating one)"; the generated ids are made deterministic by
position. -/
def get_uuids (documents : List Document) : List String :=
  documents.enum.map fun p =>
    match p.2.metadata.bind (fun m => dictGet m "doc_id") with
    | some (Val.str s) => s
    | _ => "generated-id-" ++ toString p.1

/-- Zips parallel id/text/embedding/metadata lists into entries
(chromadb validates that the lists have equal lengths). -/
def zipEntries : List String → List String → List (List ℚ) →
    List (Option Metadata) → List Entry
  | i :: is, t :: ts, e :: es, m :: ms => ⟨i, t, e, m⟩ :: zipEntries is ts es ms
  | _, _, _, _ => []

/-- Backend upsert of a single entry: re-adding an existing id replaces
its content in place, a new id is appended — never duplicates. -/
def upsertOne (es : List Entry) (e : Entry) : List Entry :=
  if es.any (fun x => x.id = e.id) then
    es.map (fun x => if x.id = e.id then e else x)
  else
    es ++ [e]

/-- `collection.upsert(ids=uuids, documents=texts, embeddings=...,
metadatas=...)` of the external chromadb client. -/
def collUpsert (name : String) (ids texts : List String)
    (embeddings : List (List ℚ)) (metadatas : List (Option Metadata))
    (st : Store) : Store × List Event :=
  let es := (alistGet st.collections name).getD []
  let es2 := (zipEntries ids texts embeddings metadatas).foldl upsertOne es
  ({ st with collections := alistInsert st.collections name es2 },
   [.collUpsert name ids])

/-- `ChromaVector.add_texts` (lines 68-75). -/
def add_texts (collection_name : String) (documents : List Document)
    (embeddings : List (List ℚ)) (st : Store) : Store × List Event :=
  let uuids := get_uuids documents
  let texts := documents.map (fun d => d.page_content)
  let metadatas := documents.map (fun d => d.metadata)
  let (_, st1, ev1) := get_or_create_collection collection_name st
  let (st2, ev2) := collUpsert collection_name uuids texts embeddings metadatas st1
  (st2, ev1 ++ ev2)

/-- `ChromaVector.create` (lines 52-57): `if texts:` guards the whole
body, so an empty document list does nothing; otherwise the collection
is provisioned and then `add_texts` runs on the same arguments. -/
def create (collection_name : String) (texts : List Document)
    (embeddings : List (List ℚ)) (st : Store) : Store × List Event :=
  if texts.isEmpty then (st, [])
  else
    let (st1, ev1) := create_collection collection_name collection_name st
    let (st2, ev2) := add_texts collection_name texts embeddings st1
    (st2, ev1 ++ ev2)

/-- `ChromaVector.delete_by_ids` (lines 85-89): returns at once on an
empty id list; otherwise `collection.delete(ids=ids)` removes the
matching entries.  The backend delete is set-semantics per the
documented chromadb contract: absent ids are silently ignored. -/
def delete_by_ids (collection_name : String) (ids : List String)
    (st : Store) : Store × List Event :=
  if ids.isEmpty then (st, [])
  else
    let (es, st1, ev1) := get_or_create_collection collection_name st
    let es2 := es.filter (fun e => !ids.contains e.id)
    ({ st1 with collections := alistInsert st1.collections collection_name es2 },
     ev1 ++ [.collDelete collection_name ids])

/-!
### `text_exists` and the backend `GetResult`

chromadb's `collection.get` returns a `GetResult`, a `TypedDict` whose
keys are `ids`, `embeddings`, `documents`, `uris`, `data`, `metadatas`
and `included`.  At runtime it is an ordinary dict that always carries
those seven keys, whatever the query matched, so Python's
`len(response)` is the number of keys, 7 — never the number of
matching entries.
-/

/-- chromadb `GetResult` for `collection.get(ids=[...])`. -/
structure GetResult where
  ids : List String
  embeddings : Option (List (List ℚ))
  documents : Option (List String)
  uris : Option (List String)
  data : Option (List String)
  metadatas : Option (List (Option Metadata))
  included : List String
deriving DecidableEq, Repr

/-- Python `len(...)` applied to the `GetResult` dict: the number of
its keys (always the seven fixed `TypedDict` keys), independent of how
many entries matched. -/
def GetResult.pyLen (_ : GetResult) : Nat := 7

/-- `collection.get(ids=ids)` of the external chromadb client: the
entries whose id is in `ids`, presented as a `GetResult` (embeddings
are not included by default). -/
def collGet (es : List Entry) (ids : List String) : GetResult :=
  let hits := es.filter (fun e => ids.contains e.id)
  { ids := hits.map (fun e => e.id)
    embeddings := none
    documents := some (hits.map (fun e => e.text))
    uris := none
    data := none
    metadatas := some (hits.map (fun e => e.metadata))
    included := ["documents", "metadatas"] }

/-- `ChromaVector.text_exists` (lines 91-94): fetches by id and then
tests `len(response) > 0` — the length of the `GetResult` dict itself,
not of its `ids` list. -/
def text_exists (collection_name id : String) (st : Store) :
    Bool × Store × List Event :=
  let (es, st1, ev1) := get_or_create_collection collection_name st
  let response := collGet es [id]
  (decide (GetResult.pyLen response > 0), st1,
   ev1 ++ [.collGet collection_name [id]])

/-!
### The factory (`ChromaVectorFactory.init_vector`)
-/

/-- `str.lower()` restricted to ASCII (all collection names the factory
produces are ASCII). -/
def pyLower (s : String) : String := ⟨s.data.map Char.toLower⟩

/-- The persisted index structure
`{"type": ..., "vector_store": {"class_prefix": ...}}`; the field
`classPfx` models the nested JSON key `vector_store.class_prefix`. -/
structure IndexStructDict where
  type : String
  classPfx : String
deriving DecidableEq, Repr

/-- The `Dataset` entity as consumed by the factory: its id and its
parsed index structure (`index_struct_dict` is `None`/falsy when no
index structure has been persisted yet). -/
structure Dataset where
  id : String
  index_struct_dict : Option IndexStructDict
deriving DecidableEq, Repr

/-- `VectorType.CHROMA` ("chroma"), the backend kind recorded in the
persisted index structure. -/
def vectorTypeChroma : String := "chroma"

/-- Modelled from the spec: `Dataset.gen_collection_name_by_id`
(`models/dataset.py`) is not among the provided sources; the spec
requires only that the factory "deterministically derive a name from
the dataset id", which this deterministic derivation satisfies. -/
def gen_collection_name_by_id (dataset_id : String) : String :=
  "Vector_index_" ++ dataset_id ++ "_Node"

/-- `ChromaVectorFactory.init_vector` (lines 140-148), reduced to its
collection-name resolution and dataset mutation: with a persisted index
structure, read `vector_store.class_prefix` and lowercase it; without
one, derive the name from the dataset id, lowercase it, and persist the
new index structure onto the dataset (`dataset.index_struct =
json.dumps(...)`, so the dataset's parsed `index_struct_dict` becomes
that structure).  Returns the resolved collection name and the
(possibly mutated) dataset. -/
def init_vector (dataset : Dataset) : String × Dataset :=
  match dataset.index_struct_dict with
  | some isd => (pyLower isd.classPfx, dataset)
  | none =>
      let collection_name := pyLower (gen_collection_name_by_id dataset.id)
      (collection_name,
       { dataset with
          index_struct_dict := some ⟨vectorTypeChroma, collection_name⟩ })

/-!
## Supporting lemmas
-/

/-- Looking up a key just inserted into a metadata dict yields the
inserted value. -/
theorem dictGet_dictInsert (m : Metadata) (k : String) (v : Val) :
    dictGet (dictInsert m k v) k = some v := by
  induction m with
  | nil => simp [dictInsert, dictGet]
  | cons p rest ih =>
      rcases p with ⟨k', v'⟩
      by_cases h : k' = k
      · simp [dictInsert, dictGet, h]
      · simp [dictInsert, dictGet, h, ih]

/-- `listIndex` succeeds exactly on in-range indices. -/
theorem listIndex_ok {α : Type} (xs : List α) (i : Nat) (h : i < xs.length) :
    listIndex xs i = .ok xs[i] := by
  simp [listIndex, List.getElem?_eq_getElem h]

/-- Monadic bind on a successful `Except` computation. -/
theorem ok_bind {ε α β : Type} (a : α) (f : α → Except ε β) :
    (Except.ok a : Except ε α) >>= f = f a := rfl

/-- The index loop of `search_by_vector`, run over the still-unvisited
index range of parallel arrays, produces exactly the `zipCollect`
filtering of the corresponding zipped suffix. -/
theorem collectDocs_range' (ds : List String) (ms : List Metadata)
    (qs : List ℚ) (t : ℚ) (k : Nat) :
    ∀ i : Nat, i + k = ds.length → ms.length = ds.length →
      qs.length = ds.length →
      collectDocs ds ms qs t (List.range' i k) =
        .ok (zipCollect t ((ds.drop i).zip ((ms.drop i).zip (qs.drop i)))) := by
  induction k with
  | zero =>
      intro i hi _ _
      have hd : ds.drop i = [] := List.drop_eq_nil_of_le (by omega)
      simp [List.range', collectDocs, hd, zipCollect]
  | succ k ih =>
      intro i hi hm hq
      have hdlt : i < ds.length := by omega
      have hmlt : i < ms.length := by omega
      have hqlt : i < qs.length := by omega
      have hdd : ds.drop i = ds[i] :: ds.drop (i + 1) :=
        List.drop_eq_getElem_cons hdlt
      have hdm : ms.drop i = ms[i] :: ms.drop (i + 1) :=
        List.drop_eq_getElem_cons hmlt
      have hdq : qs.drop i = qs[i] :: qs.drop (i + 1) :=
        List.drop_eq_getElem_cons hqlt
      rw [List.range'_succ, hdd, hdm, hdq]
      rw [collectDocs, listIndex_ok qs i hqlt, listIndex_ok ms i hmlt]
      simp only [ok_bind]
      by_cases ht : 1 - qs[i] > t
      · rw [if_pos ht]
        rw [listIndex_ok ds i hdlt]
        rw [ih (i + 1) (by omega) hm hq]
        simp only [ok_bind]
        simp [zipCollect, ht, List.zip]
      · rw [if_neg ht]
        rw [ih (i + 1) (by omega) hm hq]
        simp [zipCollect, ht, List.zip]

/-- `zipCollect` as a `filterMap` over the zipped candidate triples. -/
theorem zipCollect_eq_filterMap (t : ℚ) (l : List (String × Metadata × ℚ)) :
    zipCollect t l = l.filterMap fun pmd =>
      if 1 - pmd.2.2 > t then
        some ⟨pmd.1, some (dictInsert pmd.2.1 "score" (.num (1 - pmd.2.2)))⟩
      else none := by
  induction l with
  | nil => simp [zipCollect]
  | cons p rest ih =>
      rcases p with ⟨pc, m, dist⟩
      by_cases h : 1 - dist > t
      · simp [zipCollect, h, ih]
      · simp [zipCollect, h, ih]

/-- Every document the loop keeps carries its numeric score, strictly
above the threshold, under the `"score"` metadata key. -/
theorem zipCollect_mem_score (t : ℚ) (l : List (String × Metadata × ℚ)) :
    ∀ d ∈ zipCollect t l, ∃ q : ℚ,
      (d.metadata.bind fun m => dictGet m "score") = some (Val.num q) ∧
        q > t := by
  induction l with
  | nil => simp [zipCollect]
  | cons p rest ih =>
      rcases p with ⟨pc, m, dist⟩
      by_cases h : 1 - dist > t
      · intro d hd
        rw [zipCollect, if_pos h] at hd
        rcases List.mem_cons.mp hd with hd1 | hd1
        · subst hd1
          exact ⟨1 - dist, by simp [dictGet_dictInsert], h⟩
        · exact ih d hd1
      · intro d hd
        rw [zipCollect, if_neg h] at hd
        exact ih d hd

/-- The loop keeps at most as many candidates as it visits. -/
theorem zipCollect_length_le (t : ℚ) (l : List (String × Metadata × ℚ)) :
    (zipCollect t l).length ≤ l.length := by
  induction l with
  | nil => simp [zipCollect]
  | cons p rest ih =>
      rcases p with ⟨pc, m, dist⟩
      by_cases h : 1 - dist > t
      · rw [zipCollect, if_pos h]
        simpa using Nat.succ_le_succ ih
      · rw [zipCollect, if_neg h]
        exact Nat.le_succ_of_le ih

/-- Inserting a document whose score is `q` into a list leaves it, in
the `q`-score fibre, in front of exactly the previous `q`-score
documents: `orderedInsert` only skips over strictly higher scores. -/
theorem filter_orderedInsert_eq (x : Document) (l : List Document) (q : ℚ)
    (hx : scoreKey x = q) :
    (List.orderedInsert docGE x l).filter (fun d => scoreKey d = q) =
      x :: l.filter (fun d => scoreKey d = q) := by
  induction l with
  | nil => simp [hx]
  | cons y ys ih =>
      by_cases h : docGE x y
      · rw [List.orderedInsert, if_pos h]
        simp [List.filter_cons, hx]
      · rw [List.orderedInsert, if_neg h]
        have hy : ¬(scoreKey y = q) := by
          intro hq
          exact h (le_of_eq (hq.trans hx.symm))
        simp only [List.filter_cons]
        simp [hy, ih]

/-- Inserting a document whose score is not `q` does not disturb the
`q`-score fibre of the list. -/
theorem filter_orderedInsert_ne (x : Document) (l : List Document) (q : ℚ)
    (hx : ¬(scoreKey x = q)) :
    (List.orderedInsert docGE x l).filter (fun d => scoreKey d = q) =
      l.filter (fun d => scoreKey d = q) := by
  induction l with
  | nil => simp [hx]
  | cons y ys ih =>
      by_cases h : docGE x y
      · rw [List.orderedInsert, if_pos h]
        simp [List.filter_cons, hx]
      · rw [List.orderedInsert, if_neg h]
        simp only [List.filter_cons, ih]

/-- Stability of the modelled `sorted(..., reverse=True)`: within each
equal-score class, the sorted output lists the documents in their
original order. -/
theorem filter_insertionSort (l : List Document) (q : ℚ) :
    (List.insertionSort docGE l).filter (fun d => scoreKey d = q) =
      l.filter (fun d => scoreKey d = q) := by
  induction l with
  | nil => simp
  | cons x xs ih =>
      rw [List.insertionSort]
      by_cases hx : scoreKey x = q
      · rw [filter_orderedInsert_eq x _ q hx, ih]
        simp [List.filter_cons, hx]
      · rw [filter_orderedInsert_ne x _ q hx, ih]
        simp [List.filter_cons, hx]

/-- Full evaluation of `search_by_vector` on a well-shaped backend
response: with all four fields present and truthy and the first rows
parallel, the result is the stable descending sort of the thresholded
candidate list. -/
theorem search_by_vector_eval (r : QueryResultRaw) (ids0 : List String)
    (ds0 : List String) (ms0 : List Metadata) (qs0 : List ℚ)
    (idsR : List (List String)) (dsR : List (List String))
    (msR : List (List Metadata)) (qsR : List (List ℚ)) (thr : Option ℚ)
    (h1 : r.ids = some (some (ids0 :: idsR)))
    (h2 : r.documents = some (some (ds0 :: dsR)))
    (h3 : r.metadatas = some (some (ms0 :: msR)))
    (h4 : r.distances = some (some (qs0 :: qsR)))
    (hd : ds0.length = ids0.length) (hm : ms0.length = ids0.length)
    (hq : qs0.length = ids0.length) :
    search_by_vector r thr =
      .ok (List.insertionSort docGE
        (zipCollect (thr.getD 0) (ds0.zip (ms0.zip qs0)))) := by
  unfold search_by_vector
  rw [h1, h2, h3, h4]
  simp only [getKey, ok_bind, firstRow]
  have hcoll : collectDocs ds0 ms0 qs0 (thr.getD 0)
      (List.range' 0 ids0.length) =
      .ok (zipCollect (thr.getD 0) (ds0.zip (ms0.zip qs0))) := by
    have := collectDocs_range' ds0 ms0 qs0 (thr.getD 0) ids0.length 0
      (by omega) (by omega) (by omega)
    simpa using this
  rw [List.range_eq_range', hcoll]
  rfl

/-- Packing a valid codepoint and unpacking it round-trips. -/
theorem char_toNat_ofNat_valid (m : Nat) (h : m.isValidChar) :
    (Char.ofNat m).toNat = m := by
  rw [Char.ofNat, dif_pos h]
  rfl

/-- ASCII lower-casing is idempotent on characters. -/
theorem char_toLower_idem (c : Char) : c.toLower.toLower = c.toLower := by
  by_cases h : c.toNat ≥ 65 ∧ c.toNat ≤ 90
  · have h1 : c.toLower = Char.ofNat (c.toNat + 32) := by
      simp only [Char.toLower]
      rw [if_pos h]
    have hv : (c.toNat + 32).isValidChar := Or.inl (by omega)
    have ht : (Char.ofNat (c.toNat + 32)).toNat = c.toNat + 32 :=
      char_toNat_ofNat_valid _ hv
    rw [h1]
    simp only [Char.toLower, ht]
    rw [if_neg (by omega)]
  · have h1 : c.toLower = c := by
      simp only [Char.toLower]
      rw [if_neg h]
    simp only [h1]

/-- Lower-casing a string is idempotent. -/
theorem pyLower_idem (s : String) : pyLower (pyLower s) = pyLower s := by
  unfold pyLower
  show String.mk ((s.data.map Char.toLower).map Char.toLower) =
    String.mk (s.data.map Char.toLower)
  rw [List.map_map]
  exact congrArg String.mk
    (List.map_congr_left fun c _ => char_toLower_idem c)

/-- Updating an association list at a key it already binds to the same
value leaves the list unchanged. -/
theorem alistInsert_self {α : Type} (l : List (String × α)) (k : String)
    (v : α) (h : alistGet l k = some v) : alistInsert l k v = l := by
  induction l with
  | nil => simp [alistGet] at h
  | cons p rest ih =>
      rcases p with ⟨k', v'⟩
      by_cases hk : k' = k
      · subst hk
        simp [alistGet] at h
        simp [alistInsert, h]
      · simp [alistGet, hk] at h
        simp [alistInsert, hk, ih h]

/-!
## Claim theorems
-/

/-- C1: for every well-shaped backend query result, each candidate with
distance `d` is converted to `score = 1 - d`; a candidate is included
in the returned sequence if and only if its score is strictly greater
than `score_threshold` (equality excludes), and every returned
`Document` stores its computed score under `metadata["score"]`.  The
returned sequence is exactly (up to the final reordering treated in the
next claim) the filter-map keeping the above-threshold candidates with
their score injected. -/
theorem search_by_vector_score_conversion (r : QueryResultRaw)
    (ids0 ds0 : List String) (ms0 : List Metadata) (qs0 : List ℚ)
    (idsR dsR : List (List String)) (msR : List (List Metadata))
    (qsR : List (List ℚ)) (thr : ℚ)
    (h1 : r.ids = some (some (ids0 :: idsR)))
    (h2 : r.documents = some (some (ds0 :: dsR)))
    (h3 : r.metadatas = some (some (ms0 :: msR)))
    (h4 : r.distances = some (some (qs0 :: qsR)))
    (hd : ds0.length = ids0.length) (hm : ms0.length = ids0.length)
    (hq : qs0.length = ids0.length) :
    ∃ docs, search_by_vector r (some thr) = .ok docs ∧
      docs.Perm ((ds0.zip (ms0.zip qs0)).filterMap fun pmd =>
        if 1 - pmd.2.2 > thr then
          some ⟨pmd.1, some (dictInsert pmd.2.1 "score" (.num (1 - pmd.2.2)))⟩
        else none) ∧
      ∀ doc ∈ docs, ∃ q : ℚ,
        (doc.metadata.bind fun m => dictGet m "score") = some (Val.num q) ∧
          q > thr := by
  refine ⟨_, search_by_vector_eval r ids0 ds0 ms0 qs0 idsR dsR msR qsR
    (some thr) h1 h2 h3 h4 hd hm hq, ?_, ?_⟩
  · rw [← zipCollect_eq_filterMap]
    exact List.perm_insertionSort docGE _
  · intro doc hdoc
    have hmem : doc ∈ zipCollect thr (ds0.zip (ms0.zip qs0)) :=
      (List.perm_insertionSort docGE _).mem_iff.mp hdoc
    exact zipCollect_mem_score thr _ doc hmem

/-- Witness for C1, the spec's own scenario: distances `[0.1, 1.4]`
against threshold `0.5` keep only the first candidate, with score
`0.9` injected. -/
theorem search_by_vector_score_conversion_witness :
    ∃ docs,
      search_by_vector
        ⟨some (some [["id-a", "id-b"]]), some (some [["a", "b"]]),
         some (some [[[], []]]), some (some [[1/10, 7/5]])⟩
        (some (1/2)) = .ok docs ∧
      docs.Perm ((["a", "b"].zip (([[], []] : List Metadata).zip
          ([1/10, 7/5] : List ℚ))).filterMap fun pmd =>
        if 1 - pmd.2.2 > (1/2 : ℚ) then
          some ⟨pmd.1, some (dictInsert pmd.2.1 "score" (.num (1 - pmd.2.2)))⟩
        else none) ∧
      ∀ doc ∈ docs, ∃ q : ℚ,
        (doc.metadata.bind fun m => dictGet m "score") = some (Val.num q) ∧
          q > (1/2 : ℚ) :=
  search_by_vector_score_conversion _ ["id-a", "id-b"] ["a", "b"] [[], []]
    [1/10, 7/5] [] [] [] [] (1/2) rfl rfl rfl rfl rfl rfl rfl

/-- C2: for every well-shaped backend query result of at most `top_k`
candidates (the backend is called with `n_results = top_k`), the
returned sequence has at most `top_k` documents, is sorted by score
descending, and is stable: within each equal-score class the original
backend order (that of the pre-sort candidate list `zipCollect ...`) is
preserved. -/
theorem search_by_vector_topk_sorted_stable (r : QueryResultRaw)
    (ids0 ds0 : List String) (ms0 : List Metadata) (qs0 : List ℚ)
    (idsR dsR : List (List String)) (msR : List (List Metadata))
    (qsR : List (List ℚ)) (thr : Option ℚ) (top_k : Nat)
    (h1 : r.ids = some (some (ids0 :: idsR)))
    (h2 : r.documents = some (some (ds0 :: dsR)))
    (h3 : r.metadatas = some (some (ms0 :: msR)))
    (h4 : r.distances = some (some (qs0 :: qsR)))
    (hd : ds0.length = ids0.length) (hm : ms0.length = ids0.length)
    (hq : qs0.length = ids0.length) (htop : ids0.length ≤ top_k) :
    ∃ docs, search_by_vector r thr = .ok docs ∧
      docs.length ≤ top_k ∧
      List.Sorted docGE docs ∧
      ∀ q : ℚ, docs.filter (fun d => scoreKey d = q) =
        (zipCollect (thr.getD 0) (ds0.zip (ms0.zip qs0))).filter
          (fun d => scoreKey d = q) := by
  refine ⟨_, search_by_vector_eval r ids0 ds0 ms0 qs0 idsR dsR msR qsR
    thr h1 h2 h3 h4 hd hm hq, ?_, ?_, ?_⟩
  · rw [List.length_insertionSort]
    have hz : (ds0.zip (ms0.zip qs0)).length ≤ ds0.length := by
      rw [List.length_zip]
      exact Nat.min_le_left _ _
    have := zipCollect_length_le (thr.getD 0) (ds0.zip (ms0.zip qs0))
    omega
  · exact List.sorted_insertionSort docGE _
  · intro q
    exact filter_insertionSort _ q

/-- Witness for C2: two candidates at the same distance keep their
backend order; the result fits within `top_k = 2`. -/
theorem search_by_vector_topk_sorted_stable_witness :
    ∃ docs,
      search_by_vector
        ⟨some (some [["id-a", "id-b"]]), some (some [["a", "b"]]),
         some (some [[[], []]]), some (some [[1/10, 1/10]])⟩
        (some (1/2)) = .ok docs ∧
      docs.length ≤ 2 ∧
      List.Sorted docGE docs ∧
      ∀ q : ℚ, docs.filter (fun d => scoreKey d = q) =
        (zipCollect ((some (1/2 : ℚ)).getD 0)
          ((["a", "b"].zip (([[], []] : List Metadata).zip
            ([1/10, 1/10] : List ℚ))))).filter (fun d => scoreKey d = q) :=
  search_by_vector_topk_sorted_stable _ ["id-a", "id-b"] ["a", "b"]
    [[], []] [1/10, 1/10] [] [] [] [] (some (1/2)) 2
    rfl rfl rfl rfl rfl rfl rfl (by decide)

/-- Counterexample to C3 as stated: a backend response from which the
`ids` key is entirely absent makes `search_by_vector` raise a
`KeyError` (the code subscripts `results["ids"]` before the emptiness
test), rather than return the empty sequence. -/
theorem search_by_vector_missing_key_raises :
    search_by_vector ⟨none, some none, some none, some none⟩ none =
      .error "KeyError: ids" := rfl

/-- C3 as amended: for every backend response in which the `ids`,
`documents`, `metadatas` and `distances` keys are all present, if any
of their values is `None` or the empty list then `search_by_vector`
returns the empty sequence and does not raise. -/
theorem search_by_vector_falsy_field_empty (r : QueryResultRaw)
    (iv dv : Option (List (List String)))
    (mv : Option (List (List Metadata))) (sv : Option (List (List ℚ)))
    (thr : Option ℚ)
    (h1 : r.ids = some iv) (h2 : r.documents = some dv)
    (h3 : r.metadatas = some mv) (h4 : r.distances = some sv)
    (hfalsy : firstRow iv = none ∨ firstRow dv = none ∨
      firstRow mv = none ∨ firstRow sv = none) :
    search_by_vector r thr = .ok [] := by
  unfold search_by_vector
  rw [h1, h2, h3, h4]
  simp only [getKey, ok_bind]
  cases hiv : firstRow iv with
  | none => rfl
  | some ids0 =>
    cases hdv : firstRow dv with
    | none => rfl
    | some ds0 =>
      cases hmv : firstRow mv with
      | none => rfl
      | some ms0 =>
        cases hsv : firstRow sv with
        | none => rfl
        | some qs0 =>
          exfalso
          rcases hfalsy with h | h | h | h <;> simp_all

/-- Witness for the amended C3: all four keys present, `ids` value an
empty list — the result is the empty sequence. -/
theorem search_by_vector_falsy_field_empty_witness :
    search_by_vector
      ⟨some (some []), some none, some (some [[]]), some (some [[0]])⟩
      none = .ok [] :=
  search_by_vector_falsy_field_empty
    ⟨some (some []), some none, some (some [[]]), some (some [[0]])⟩
    (some []) none (some [[]]) (some [[0]]) none
    rfl rfl rfl rfl (Or.inl rfl)

/-- C8: `search_by_full_text` returns the empty sequence for every
query (chroma lacks lexical search) and never raises. -/
theorem search_by_full_text_always_empty (query : String) :
    search_by_full_text query = [] := rfl

/-- C4: inside the provisioning lock named for the collection, the
existence-cache entry is checked first; if present, the operation
returns at once, with no backend call and no state change; otherwise
the backend get-or-create-collection call is issued exactly once,
followed by setting the cache entry to the sentinel `1` with a
3600-second expiry.  The full event trace and resulting state are
characterised for both cases. -/
theorem create_collection_cache_discipline (cname sname : String)
    (st : Store) :
    create_collection cname sname st =
      if (alistGet st.cache ("vector_indexing_" ++ sname)).isSome then
        (st,
         [Event.lockAcquire ("vector_indexing_lock_" ++ cname) 20,
          Event.cacheGet ("vector_indexing_" ++ sname),
          Event.lockRelease ("vector_indexing_lock_" ++ cname)])
      else
        ({ cache := alistInsert st.cache ("vector_indexing_" ++ sname)
              (1, 3600),
           collections :=
             match alistGet st.collections cname with
             | some _ => st.collections
             | none => alistInsert st.collections cname [] },
         [Event.lockAcquire ("vector_indexing_lock_" ++ cname) 20,
          Event.cacheGet ("vector_indexing_" ++ sname),
          Event.getOrCreateCollection cname,
          Event.cacheSet ("vector_indexing_" ++ sname) 1 3600,
          Event.lockRelease ("vector_indexing_lock_" ++ cname)]) := by
  unfold create_collection redisGet redisSet get_or_create_collection
  cases h : alistGet st.cache ("vector_indexing_" ++ sname) with
  | some v => simp [h]
  | none =>
      cases h2 : alistGet st.collections cname with
      | some es => simp [h, h2]
      | none => simp [h, h2]

/-- C6: `create` with an empty document list is a no-op — the state is
untouched and no lock, cache or backend event happens at all;
otherwise it first provisions the collection and then runs `add_texts`
on the very same documents and embeddings. -/
theorem create_noop_or_provision_then_add (cname : String)
    (docs : List Document) (embs : List (List ℚ)) (st : Store) :
    create cname docs embs st =
      if docs.isEmpty then (st, ([] : List Event))
      else
        ((add_texts cname docs embs (create_collection cname cname st).1).1,
         (create_collection cname cname st).2 ++
           (add_texts cname docs embs
             (create_collection cname cname st).1).2) := by
  unfold create
  cases docs <;> simp

/-- C5: after a `create` on a non-empty, equal-length pair of document
and embedding lists, `text_exists` answers `true` for every id
assigned during that create.  (It holds because `text_exists` tests
the key count of the backend `GetResult` dict, which is constant —
see the companion claim on `text_exists`.) -/
theorem create_then_text_exists (cname : String) (docs : List Document)
    (embs : List (List ℚ)) (st : Store)
    (hne : docs ≠ []) (hlen : docs.length = embs.length) :
    ∀ id ∈ get_uuids docs,
      (text_exists cname id (create cname docs embs st).1).1 = true := by
  intro id _
  unfold text_exists get_or_create_collection
  cases alistGet (create cname docs embs st).1.collections cname <;> rfl

/-- Witness for C5: one document, one embedding, fresh state. -/
theorem create_then_text_exists_witness :
    ([(⟨"hello", none⟩ : Document)] ≠ []) ∧
    ([(⟨"hello", none⟩ : Document)].length = [[(0 : ℚ)]].length) ∧
    ∀ id ∈ get_uuids [(⟨"hello", none⟩ : Document)],
      (text_exists "col" id
        (create "col" [⟨"hello", none⟩] [[0]] ⟨[], []⟩).1).1 = true :=
  ⟨by decide, by decide,
   create_then_text_exists "col" [⟨"hello", none⟩] [[0]] ⟨[], []⟩
     (by decide) (by decide)⟩

/-- C7: `delete_by_ids` on the empty id list performs no backend
operation at all (state unchanged, empty trace), and deleting ids none
of which occur in the collection leaves the collection's entries
unchanged (the operation is total, so it cannot raise). -/
theorem delete_by_ids_empty_and_missing (cname : String)
    (ids : List String) (st : Store) (es : List Entry)
    (hcoll : alistGet st.collections cname = some es)
    (hmiss : ∀ i ∈ ids, ∀ e ∈ es, e.id ≠ i) :
    delete_by_ids cname [] st = (st, []) ∧
    alistGet (delete_by_ids cname ids st).1.collections cname = some es := by
  constructor
  · rfl
  · by_cases hids : ids.isEmpty
    · unfold delete_by_ids
      rw [if_pos hids]
      exact hcoll
    · unfold delete_by_ids get_or_create_collection
      rw [if_neg hids, hcoll]
      have hfilter : es.filter (fun e => !ids.contains e.id) = es := by
        apply List.filter_eq_self.mpr
        intro e he
        simp only [Bool.not_eq_true']
        by_contra hc
        rw [Bool.not_eq_false] at hc
        have : e.id ∈ ids := by
          simpa using hc
        exact hmiss e.id this e he rfl
      simp only [hfilter]
      rw [alistInsert_self st.collections cname es hcoll]
      exact hcoll

/-- Witness for C7: a one-entry collection and an id list that misses
it. -/
theorem delete_by_ids_empty_and_missing_witness :
    delete_by_ids "c" []
        (⟨[], [("c", [⟨"x", "t", [], none⟩])]⟩ : Store) =
      ((⟨[], [("c", [⟨"x", "t", [], none⟩])]⟩ : Store), []) ∧
    alistGet (delete_by_ids "c" ["y"]
        (⟨[], [("c", [⟨"x", "t", [], none⟩])]⟩ : Store)).1.collections "c" =
      some [⟨"x", "t", [], none⟩] :=
  delete_by_ids_empty_and_missing "c" ["y"]
    ⟨[], [("c", [⟨"x", "t", [], none⟩])]⟩ [⟨"x", "t", [], none⟩]
    (by decide) (by decide)

/-- C9: for a dataset with no prior index structure, `init_vector`
derives the collection name from the dataset id, lowercases it, and
persists it into the dataset's index structure; re-running
`init_vector` on the mutated dataset resolves the identical name
(round-trip idempotence, resting on the idempotence of lowercasing). -/
theorem init_vector_roundtrip (d : Dataset)
    (h : d.index_struct_dict = none) :
    (init_vector d).1 = pyLower (gen_collection_name_by_id d.id) ∧
    (init_vector d).2.index_struct_dict =
      some ⟨vectorTypeChroma, (init_vector d).1⟩ ∧
    (init_vector (init_vector d).2).1 = (init_vector d).1 := by
  unfold init_vector
  rw [h]
  exact ⟨rfl, rfl, pyLower_idem _⟩

/-- Witness for C9 on a concrete dataset id. -/
theorem init_vector_roundtrip_witness :
    (init_vector ⟨"ds-1", none⟩).1 =
      pyLower (gen_collection_name_by_id "ds-1") ∧
    (init_vector ⟨"ds-1", none⟩).2.index_struct_dict =
      some ⟨vectorTypeChroma, (init_vector ⟨"ds-1", none⟩).1⟩ ∧
    (init_vector (init_vector ⟨"ds-1", none⟩).2).1 =
      (init_vector ⟨"ds-1", none⟩).1 :=
  init_vector_roundtrip ⟨"ds-1", none⟩ rfl

/-- C10: `text_exists` answers `true` for every id — also for ids
never added to the collection — because it tests `len(response) > 0`
on the backend `GetResult` mapping, whose length is its fixed key
count, not the number of matching entries. -/
theorem text_exists_always_true (cname id : String) (st : Store) :
    (text_exists cname id st).1 = true := by
  unfold text_exists get_or_create_collection
  cases alistGet st.collections cname <;> rfl

end Chroma
